import Mathlib

set_option linter.unusedVariables false

-- Verification of the orca-shipnoise batch correlation pipeline.
-- Each Python stage is embedded as executable Lean definitions; times are
-- integer seconds, measured quantities are exact rationals, and a missing
-- (NaN) float value is `Option.none`.  Theorems at the end of the file
-- settle the specification claims against these embeddings.

-- ===== Generic helpers shared by several stage embeddings =====

/-- Minimum of a list under a linear order, with a default for the empty
list (only used on nonempty lists by the callers). -/
def listMin {α : Type} [LinearOrder α] (d : α) : List α → α
  | [] => d
  | h :: t => t.foldl min h

/-- Maximum of a list under a linear order, with a default for the empty
list (only used on nonempty lists by the callers). -/
def listMax {α : Type} [LinearOrder α] (d : α) : List α → α
  | [] => d
  | h :: t => t.foldl max h

/-- pandas `drop_duplicates(subset=[key], keep="first")`: keep the first
row for each key, scanning left to right with an accumulator of seen keys. -/
def dedupBy {α κ : Type} [DecidableEq κ] (key : α → κ) : List α → List κ → List α
  | [], _ => []
  | x :: rest, seen =>
    if key x ∈ seen then dedupBy key rest seen
    else x :: dedupBy key rest (key x :: seen)

namespace MergeAndDedup

-- Embedding of src/scripts/process/merge_and_dedup.py.

/-- One WindowedMatch row as read from a `*_windowed.csv` file; only the
fields inspected by the relevance filter and the deduplication step are
carried.  `none` encodes a NaN / missing numeric cell. -/
structure Row where
  mmsi : String
  cpa_distance_m : Option ℚ
  length_m : Option ℚ
  site_name : String
deriving DecidableEq

/-- `DEFAULT_CPA_MAX_M = 5000` (normal ships ≤ 150 m). -/
def DEFAULT_CPA_MAX_M : ℚ := 5000

/-- `LARGE_SHIP_CPA_MAX_M = 8000` (large vessels > 150 m). -/
def LARGE_SHIP_CPA_MAX_M : ℚ := 8000

/-- `SMALL_SHIP_CPA_MAX_M = 3000` (the source comment reads
"Small / unknown ships"). -/
def SMALL_SHIP_CPA_MAX_M : ℚ := 3000

/-- The three per-site ceilings of a `SITE_RANGE_OVERRIDES` entry. -/
structure RangeLimits where
  default : ℚ
  large : ℚ
  small : ℚ
deriving DecidableEq

/-- `SITE_RANGE_OVERRIDES.get(site, {})`: only the two Sunset Bay keys are
present, both mapping to `{default: 7500, large: 9000, small: 5000}`. -/
def SITE_RANGE_OVERRIDES (site : Option String) : Option RangeLimits :=
  match site with
  | some s =>
    if s = "Sunset_Bay" ∨ s = "Sunset_Bay_data" then some ⟨7500, 9000, 5000⟩
    else none
  | none => none

/-- Python `str.strip()` on the character list of a string. -/
def pyStrip (l : List Char) : List Char :=
  ((l.dropWhile Char.isWhitespace).reverse.dropWhile Char.isWhitespace).reverse

/-- `str(row.get("site_name", "")).strip() or None`. -/
def siteOf (row : Row) : Option String :=
  let s := pyStrip row.site_name.data
  if s = [] then none else some (String.mk s)

/-- `is_acoustically_relevant(row)`: reject a missing CPA; a known length
over 150 uses the large ceiling and under 50 the small ceiling; every other
row — including an unknown length — falls through to the default ceiling. -/
def is_acoustically_relevant (row : Row) : Bool :=
  let limits := SITE_RANGE_OVERRIDES (siteOf row)
  let default_max := (limits.map RangeLimits.default).getD DEFAULT_CPA_MAX_M
  let large_max := (limits.map RangeLimits.large).getD LARGE_SHIP_CPA_MAX_M
  let small_max := (limits.map RangeLimits.small).getD SMALL_SHIP_CPA_MAX_M
  match row.cpa_distance_m with
  | none => false
  | some cpa =>
    match row.length_m with
    | some len =>
      if len > 150 then decide (cpa ≤ large_max)
      else if len < 50 then decide (cpa ≤ small_max)
      else decide (cpa ≤ default_max)
    | none => decide (cpa ≤ default_max)

/-- Sort key of `sort_values("cpa_distance_m")`: NaN rows order last. -/
def cpaKey (row : Row) : WithTop ℚ :=
  match row.cpa_distance_m with
  | none => ⊤
  | some q => (q : WithTop ℚ)

/-- The ascending-CPA row order used by the deduplication sort. -/
def cpaLe (a b : Row) : Prop := cpaKey a ≤ cpaKey b

instance : DecidableRel cpaLe := fun a b =>
  inferInstanceAs (Decidable (cpaKey a ≤ cpaKey b))

instance : IsTotal Row cpaLe := ⟨fun a b => le_total (cpaKey a) (cpaKey b)⟩

instance : IsTrans Row cpaLe := ⟨fun _ _ _ h h' => le_trans h h'⟩

/-- `df.sort_values("cpa_distance_m").drop_duplicates(subset=["mmsi"],
keep="first")`. -/
def sort_and_dedup (rows : List Row) : List Row :=
  dedupBy Row.mmsi (List.insertionSort cpaLe rows) []

/-- The filter + dedup core of `process_day_folder` on the merged table. -/
def process_rows (rows : List Row) : List Row :=
  sort_and_dedup (rows.filter is_acoustically_relevant)

end MergeAndDedup

namespace ExtractLoudest

-- Embedding of src/scripts/process/extract_loudest_segment.py.

/-- A Python float that may be NaN; every measured quantity that flows into
`classify_confidence` has this shape. -/
inductive PyFloat where
  | nan : PyFloat
  | val : ℚ → PyFloat
deriving DecidableEq

/-- `np.isnan`. -/
def isnan : PyFloat → Bool
  | .nan => true
  | .val _ => false

/-- Python `x > c` for a possibly-NaN float `x`: NaN compares false. -/
def pyGt : PyFloat → ℚ → Bool
  | .nan, _ => false
  | .val q, c => decide (q > c)

/-- Python `x >= c` for a possibly-NaN float `x`: NaN compares false. -/
def pyGe : PyFloat → ℚ → Bool
  | .nan, _ => false
  | .val q, c => decide (q ≥ c)

/-- `delta_L is not None and delta_L > c`. -/
def dGt (d : Option PyFloat) (c : ℚ) : Bool :=
  match d with
  | none => false
  | some x => pyGt x c

/-- `classify_confidence(ratio, entropy=None, delta_L=None, site_name=None)`:
Sunset_Bay uses the permissive threshold table (2 / 0.2 / 0.05 on the ratio,
4 / −2 / −8 on delta_L); every other site uses 5 / 0.5 / 0.1 and 6 / −1 / −6,
and its third branch returns "none" rather than "low".  The `entropy`
argument is accepted and ignored, as in the source. -/
def classify_confidence (ratio : PyFloat) (entropy delta_L : Option PyFloat)
    (site_name : Option String) : String :=
  if site_name = some "Sunset_Bay" then
    if isnan ratio then "none"
    else if pyGt ratio 2 || dGt delta_L 4 then "high"
    else if pyGt ratio (mkRat 2 10) || dGt delta_L (-2) then "medium"
    else if pyGt ratio (mkRat 5 100) || dGt delta_L (-8) then "low"
    else "none"
  else
    if isnan ratio then "none"
    else if pyGt ratio 5 || dGt delta_L 6 then "high"
    else if pyGt ratio (mkRat 5 10) || dGt delta_L (-1) then "medium"
    else if pyGe ratio (mkRat 1 10) || dGt delta_L (-6) then "none"
    else "none"

/-- One parsed entry of `parse_segment_ranges`: a recording session folder
with an inclusive sequence-number range (`{"folder": …, "start": a,
"end": b}`).  Sequence numbers are Python ints, embedded as `ℤ`. -/
structure SegRange where
  folder : String
  start : ℤ
  end_ : ℤ
deriving DecidableEq

/-- Outcome of one HTTP GET of a candidate URL: success, a definitive 404,
or a raised exception (timeout / non-2xx status). -/
inductive FetchOutcome where
  | ok : FetchOutcome
  | notFound : FetchOutcome
  | error : FetchOutcome
deriving DecidableEq

/-- A candidate segment URL.  The source formats
`…/{s3_prefix}/hls/{folder}/live{seg}.ts` (plain) or `live{seg:03d}.ts`
(zero-padded); the two naming conventions are tagged by `padded` here, and
`s3pfx` abbreviates the source's bucket path argument. -/
structure Url where
  s3pfx : String
  folder : String
  seg : ℤ
  padded : Bool
deriving DecidableEq

/-- `download_ts(s3_prefix, folder, seg_int, …)`: try the plain URL, then the
zero-padded URL; any 404 or raised exception moves on to the next candidate;
no candidate is ever requested twice and there is no delay between the two
requests.  Returns the secured URL (if any) together with the ordered log of
URLs actually requested. -/
def download_ts (net : Url → FetchOutcome) (s3pfx folder : String) (seg : ℤ) :
    Option Url × List Url :=
  let url_plain : Url := ⟨s3pfx, folder, seg, false⟩
  let url_padded : Url := ⟨s3pfx, folder, seg, true⟩
  match net url_plain with
  | .ok => (some url_plain, [url_plain])
  | _ =>
    match net url_padded with
    | .ok => (some url_padded, [url_plain, url_padded])
    | _ => (none, [url_plain, url_padded])

/-- The acquisition loop of `process_day`: for every sequence number of every
parsed range, attempt the download and keep the identifiers of the segments
that were secured; a failed download is skipped (`continue`) and never aborts
the loop. -/
def download_all (net : Url → FetchOutcome) (s3pfx : String)
    (ranges : List SegRange) : List (String × ℤ) :=
  ranges.flatMap fun r =>
    (((List.range (r.end_ + 1 - r.start).toNat).map (fun (i : ℕ) => r.start + (i : ℤ))).filterMap
      fun seg =>
        match (download_ts net s3pfx r.folder seg).1 with
        | some _ => some (r.folder, seg)
        | none => none)

/-- `folder_to_range_idx = {r["folder"]: i for i, r in enumerate(ranges)}`:
a later range with the same folder overwrites an earlier one, so the lookup
yields the last index carrying the folder. -/
def folder_to_range_idx (ranges : List SegRange) (folder : String) : Option ℕ :=
  ((ranges.enum.filter fun p => p.2.folder = folder).map Prod.fst).getLast?

/-- `neighbor_after(folder, seg)`: try `(folder, seg+1)` among the downloaded
candidates; failing that, if `seg` sits at (or beyond) the end of the
folder's range and a next range exists, try the exact start of that next
session. -/
def neighbor_after (ranges : List SegRange) (candidates : List (String × ℤ))
    (folder : String) (seg : ℤ) : Option (String × ℤ) :=
  if (folder, seg + 1) ∈ candidates then some (folder, seg + 1)
  else
    match folder_to_range_idx ranges folder with
    | none => none
    | some ridx =>
      match ranges.get? ridx, ranges.get? (ridx + 1) with
      | some r, some next_r =>
        if seg ≥ r.end_ ∧ (next_r.folder, next_r.start) ∈ candidates then
          some (next_r.folder, next_r.start)
        else none
      | _, _ => none

/-- `neighbor_before(folder, seg)`: try `(folder, seg-1)`; failing that, if
`seg` sits at (or before) the start of the folder's range and a previous
range exists, try the exact end of that previous session. -/
def neighbor_before (ranges : List SegRange) (candidates : List (String × ℤ))
    (folder : String) (seg : ℤ) : Option (String × ℤ) :=
  if (folder, seg - 1) ∈ candidates then some (folder, seg - 1)
  else
    match folder_to_range_idx ranges folder with
    | none => none
    | some ridx =>
      match ranges.get? ridx, (if 1 ≤ ridx then ranges.get? (ridx - 1) else none) with
      | some r, some prev_r =>
        if seg ≤ r.start ∧ (prev_r.folder, prev_r.end_) ∈ candidates then
          some (prev_r.folder, prev_r.end_)
        else none
      | _, _ => none

/-- The adjacent-merge clip choice of `process_day`: start from the loudest
(center) segment, append `neighbor_after` when available, otherwise prepend
`neighbor_before` when available, otherwise keep the single center segment. -/
def choose_merge (ranges : List SegRange) (candidates : List (String × ℤ))
    (center : String × ℤ) : List (String × ℤ) :=
  match neighbor_after ranges candidates center.1 center.2 with
  | some nb => [center, nb]
  | none =>
    match neighbor_before ranges candidates center.1 center.2 with
    | some nb => [nb, center]
    | none => [center]

end ExtractLoudest

namespace StrictMode

/-- Modelled from the spec: the strict-mode variant of the Segment Selector
is described in §4.5 and §9 of the specification but its implementation is
not among the files under src/ (src/scripts/process/extract_loudest_segment.py
implements only the adjacent-merge variant).  Per the spec, the clip must be
exactly the center plus its immediate predecessor and successor sequence
numbers within the same session; `secured` reports whether a segment could be
obtained after an on-demand fetch attempt. -/
def strict_select (secured : String × ℤ → Bool) :
    String × ℤ → Option (List (String × ℤ))
  | (sess, n) =>
    if secured (sess, n - 1) && secured (sess, n + 1) then
      some [(sess, n - 1), (sess, n), (sess, n + 1)]
    else none

/-- Modelled from the spec: strict mode emits one FinalDetection per merged
detection whose three-segment clip was secured and discards the rest whole;
no partial clip is ever emitted. -/
def strict_finals (secured : String × ℤ → Bool)
    (dets : List (String × ℤ)) : List ((String × ℤ) × List (String × ℤ)) :=
  dets.filterMap fun c => (strict_select secured c).map fun clip => (c, clip)

end StrictMode

namespace MatchTransits

-- Embedding of src/scripts/process/match_all_transits_to_ts.py.  Timestamps
-- are integer seconds; file identifiers are kept as character lists so that
-- the path parsing of the session grouping is fully executable.

/-- `SEARCH_WINDOW = 180` seconds (±3 minutes half-window). -/
def SEARCH_WINDOW : ℤ := 180

/-- `MIN_DAY_HOURS = 23.5` (written as 47/2 so the kernel can evaluate it). -/
def MIN_DAY_HOURS : ℚ := mkRat 47 2

/-- `MAX_DAY_HOURS = 24.5` (written as 49/2 so the kernel can evaluate it). -/
def MAX_DAY_HOURS : ℚ := mkRat 49 2

/-- One row of a `*_timestamps_UTC.txt` index file: segment file identifier,
start instant and end instant (columns `file,start,end`). -/
structure TsRow where
  file : List Char
  start : ℤ
  end_ : ℤ
deriving DecidableEq

/-- `ts_df.drop_duplicates(subset=["file"]).sort_values("start")`. -/
def dedup_sort (rows : List TsRow) : List TsRow :=
  List.insertionSort (fun a b => a.start ≤ b.start) (dedupBy TsRow.file rows [])

/-- `(ts_df["end"].max() - ts_df["start"].min()).total_seconds() / 3600`. -/
def coverage_hours (rows : List TsRow) : ℚ :=
  Rat.divInt (listMax 0 (rows.map TsRow.end_) - listMin 0 (rows.map TsRow.start)) 3600

/-- Result of `load_timestamp_dataframe`: the merged index rows, whether the
next UTC day's index file was looked up (DST spring-forward), whether its
rows were merged in, and whether the fall-back note was logged. -/
structure LoadResult where
  ts : List TsRow
  fetchedNextDay : Bool
  includedNextDay : Bool
  fallbackLogged : Bool
deriving DecidableEq

/-- The coverage-driven core of `load_timestamp_dataframe`: `frames` is the
concatenation of the rows read for the previous and the target day, and
`next_day_file` the content of the next day's index file when that file
exists.  Coverage below `MIN_DAY_HOURS` pulls the next day's file in (merged
through the same dedup-and-sort); coverage above `MAX_DAY_HOURS` only logs a
fall-back note; anything between does neither. -/
def load_timestamp_dataframe (frames : List TsRow)
    (next_day_file : Option (List TsRow)) : Option LoadResult :=
  if frames = [] then none
  else
    let ts := dedup_sort frames
    if ts = [] then none
    else
      let cov := coverage_hours ts
      if cov < MIN_DAY_HOURS then
        match next_day_file with
        | some extra => some ⟨dedup_sort (ts ++ extra), true, true, false⟩
        | none => some ⟨ts, true, false, false⟩
      else if cov > MAX_DAY_HOURS then some ⟨ts, false, false, true⟩
      else some ⟨ts, false, false, false⟩

/-- The inclusive interval-overlap test of `process_sites`:
`(ts_df["end"] >= t_cpa - window) & (ts_df["start"] <= t_cpa + window)`. -/
def overlaps (window t_cpa : ℤ) (row : TsRow) : Bool :=
  decide (row.end_ ≥ t_cpa - window) && decide (row.start ≤ t_cpa + window)

/-- `f.split("/")` on a character list. -/
def splitSlashAux : List Char → List Char → List (List Char)
  | [], acc => [acc.reverse]
  | c :: rest, acc =>
    if c = '/' then acc.reverse :: splitSlashAux rest []
    else splitSlashAux rest (c :: acc)

/-- `f.split("/")`. -/
def splitSlash (l : List Char) : List (List Char) := splitSlashAux l []

/-- `f.split("/")[-2:]` unpacked as `(session, name)`, defined when the path
has at least two components. -/
def lastTwo (parts : List (List Char)) : Option (List Char × List Char) :=
  match parts.reverse with
  | name :: session :: _ => some (session, name)
  | _ => none

/-- `l.startswith(p)` on character lists. -/
def startsWith (p l : List Char) : Bool := decide (l.take p.length = p)

/-- `l.endswith(p)` on character lists. -/
def endsWith (p l : List Char) : Bool := decide (l.reverse.take p.length = p.reverse)

/-- Python `str.replace(pat, "")`, fuel-driven so that the recursion is
structural: remove every non-overlapping occurrence of the (nonempty)
pattern `p :: ps`, scanning left to right.  Each step consumes at least one
character, so `l.length` fuel always suffices. -/
def removeAllFuel (p : Char) (ps : List Char) : ℕ → List Char → List Char
  | 0, l => l
  | _ + 1, [] => []
  | fuel + 1, c :: rest =>
    if (c :: rest).take (p :: ps).length = p :: ps then
      removeAllFuel p ps fuel ((c :: rest).drop (p :: ps).length)
    else c :: removeAllFuel p ps fuel rest

/-- Python `str.replace(pat, "")` for a nonempty pattern `p :: ps`. -/
def removeAll (p : Char) (ps : List Char) (l : List Char) : List Char :=
  removeAllFuel p ps l.length l

/-- Python `int(text)` restricted to the digit strings produced by the
segment names (no sign, no surrounding whitespace). -/
def parseNat (l : List Char) : Option ℕ :=
  if l = [] ∨ ¬ l.all Char.isDigit then none
  else some (l.foldl (fun acc c => 10 * acc + (c.toNat - ('0').toNat)) 0)

/-- One iteration of the session-grouping loop: a file path containing `/`
whose final component is `live<num>.ts` contributes `(session, num)`; every
other path is skipped. -/
def sessionPair (f : List Char) : Option (List Char × ℕ) :=
  if f.contains '/' then
    match lastTwo (splitSlash f) with
    | some (session, name) =>
      if startsWith ("live").data name && endsWith (".ts").data name then
        match parseNat (removeAll 'l' ("ive").data (removeAll '.' ("ts").data name)) with
        | some num => some (session, num)
        | none => none
      else none
    | none => none
  else none

/-- `session_map.setdefault(session, []).append(num)` over an
insertion-ordered association list. -/
def smInsert (m : List (List Char × List ℕ)) (s : List Char) (n : ℕ) :
    List (List Char × List ℕ) :=
  match m with
  | [] => [(s, [n])]
  | (k, ns) :: rest =>
    if k = s then (k, ns ++ [n]) :: rest else (k, ns) :: smInsert rest s n

/-- The `session_map` built from the overlapping rows' file paths. -/
def session_map (files : List (List Char)) : List (List Char × List ℕ) :=
  (files.filterMap sessionPair).foldl (fun m p => smInsert m p.1 p.2) []

/-- `sorted(session_map.items())` followed by the per-session
`min(nums), max(nums)` range extraction. -/
def session_ranges (files : List (List Char)) : List (List Char × ℕ × ℕ) :=
  (List.insertionSort (fun a b => a.1 ≤ b.1) (session_map files)).map
    fun p => (p.1, listMin 0 p.2, listMax 0 p.2)

/-- The per-transit output of the matching loop: `match_status`,
`segment_count`, and the structured per-session ranges (the source renders
them as `"{session}/live{low}-live{high}"` joined by `", "`; that string
formatting is not modelled). -/
structure MatchOut where
  match_status : String
  segment_count : ℕ
  segment_range : Option (List (List Char × ℕ × ℕ))
deriving DecidableEq

/-- The body of the matching loop of `process_sites` for one transit row
with CPA time `t_cpa`: select the index rows overlapping
`[t_cpa − window, t_cpa + window]`; an empty selection is `no_segments`,
anything else is `window_found` with the overlap count and the per-session
ranges (`None` when no file path parses). -/
def match_row (ts : List TsRow) (window t_cpa : ℤ) : MatchOut :=
  let subset := ts.filter (overlaps window t_cpa)
  if subset = [] then ⟨"no_segments", 0, none⟩
  else
    let files := subset.map TsRow.file
    if session_map files = [] then ⟨"window_found", subset.length, none⟩
    else ⟨"window_found", subset.length, some (session_ranges files)⟩

end MatchTransits

namespace AisToTransits

-- Embedding of the per-MMSI group loop of `process_file` in
-- src/scripts/process/ais_to_transits.py (the Orcasound-Lab variant in
-- ais_to_transits_orcasound_lab.py runs the same checks after an explicit
-- sort by time).

/-- `RADIUS_M = 30000`. -/
def RADIUS_M : ℚ := 30000

/-- `CPA_MAX_M = 20000`. -/
def CPA_MAX_M : ℚ := 20000

/-- `MIN_SOG_KT = 2`. -/
def MIN_SOG_KT : ℚ := 2

/-- `MIN_POINTS = 3`. -/
def MIN_POINTS : ℕ := 3

/-- `MIN_DWELL_SEC = 60`. -/
def MIN_DWELL_SEC : ℤ := 60

/-- One retained position report of a vessel: UTC time in seconds, computed
distance to the station, and speed over ground (`none` when missing). -/
structure AisPoint where
  time : ℤ
  dist_m : ℚ
  sog : Option ℚ
deriving DecidableEq

/-- A produced transit record (the fields the invariant speaks about; the
CSV additionally derives duration, bearing, quality tag and static data).
`cpa_distance_m` carries the selected row's exact distance; the source
rounds it to one decimal for display when writing the CSV. -/
structure Transit where
  t_entry : ℤ
  t_cpa : ℤ
  t_exit : ℤ
  cpa_distance_m : ℚ
deriving DecidableEq

/-- `inside = g[g["dist_m"] <= RADIUS_M]` followed by the speed filter
`inside[(inside["sog"].isna()) | (inside["sog"] >= MIN_SOG_KT)]`. -/
def inside_points (g : List AisPoint) : List AisPoint :=
  (g.filter fun p => decide (p.dist_m ≤ RADIUS_M)).filter fun p =>
    match p.sog with
    | none => true
    | some s => decide (s ≥ MIN_SOG_KT)

/-- `inside.loc[inside["dist_m"].idxmin()]`: the first row attaining the
minimum distance, scanning forward. -/
def idxmin_row (first : AisPoint) (rest : List AisPoint) : AisPoint :=
  rest.foldl (fun best p => if p.dist_m < best.dist_m then p else best) first

/-- The group loop body of `process_file` for one MMSI: apply the radius and
speed filters, then the minimum-point-count, minimum-dwell and CPA-cutoff
guards (the source checks the radius-filtered frame for emptiness before the
speed filter; an empty result yields no transit in either formulation), and
emit the transit with entry = first qualifying time, exit = last qualifying
time, CPA = the idxmin row. -/
def process_group (g : List AisPoint) : Option Transit :=
  match inside_points g with
  | [] => none
  | f :: rest =>
    if (f :: rest).length < MIN_POINTS then none
    else
      let lastP := (f :: rest).getLast (List.cons_ne_nil f rest)
      if lastP.time - f.time < MIN_DWELL_SEC then none
      else
        let cpa := idxmin_row f rest
        if cpa.dist_m > CPA_MAX_M then none
        else some ⟨f.time, cpa.time, lastP.time, cpa.dist_m⟩

end AisToTransits

-- ===== Helper lemmas =====

theorem foldl_min_mem {α : Type} [LinearOrder α] (t : List α) (h : α) :
    t.foldl min h = h ∨ t.foldl min h ∈ t := by
  induction t generalizing h with
  | nil => left; rfl
  | cons a t ih =>
    simp only [List.foldl_cons]
    rcases ih (min h a) with hh | hh
    · rcases min_choice h a with hc | hc
      · left; rw [hh, hc]
      · right; rw [hh, hc]; exact List.mem_cons_self a t
    · right; exact List.mem_cons_of_mem a hh

theorem foldl_min_le {α : Type} [LinearOrder α] (t : List α) (h : α) :
    t.foldl min h ≤ h ∧ ∀ x ∈ t, t.foldl min h ≤ x := by
  induction t generalizing h with
  | nil => exact ⟨le_refl h, by simp⟩
  | cons a t ih =>
    obtain ⟨ih1, ih2⟩ := ih (min h a)
    refine ⟨?_, ?_⟩
    · exact le_trans ih1 (min_le_left h a)
    · intro x hx
      rcases List.mem_cons.mp hx with rfl | hx
      · exact le_trans ih1 (min_le_right h x)
      · exact ih2 x hx

theorem foldl_max_mem {α : Type} [LinearOrder α] (t : List α) (h : α) :
    t.foldl max h = h ∨ t.foldl max h ∈ t := by
  induction t generalizing h with
  | nil => left; rfl
  | cons a t ih =>
    simp only [List.foldl_cons]
    rcases ih (max h a) with hh | hh
    · rcases max_choice h a with hc | hc
      · left; rw [hh, hc]
      · right; rw [hh, hc]; exact List.mem_cons_self a t
    · right; exact List.mem_cons_of_mem a hh

theorem foldl_max_ge {α : Type} [LinearOrder α] (t : List α) (h : α) :
    h ≤ t.foldl max h ∧ ∀ x ∈ t, x ≤ t.foldl max h := by
  induction t generalizing h with
  | nil => exact ⟨le_refl h, by simp⟩
  | cons a t ih =>
    obtain ⟨ih1, ih2⟩ := ih (max h a)
    refine ⟨?_, ?_⟩
    · exact le_trans (le_max_left h a) ih1
    · intro x hx
      rcases List.mem_cons.mp hx with rfl | hx
      · exact le_trans (le_max_right h x) ih1
      · exact ih2 x hx

theorem listMin_mem {α : Type} [LinearOrder α] (d : α) (l : List α) (h : l ≠ []) :
    listMin d l ∈ l := by
  cases l with
  | nil => exact absurd rfl h
  | cons a t =>
    rcases foldl_min_mem t a with hh | hh
    · rw [listMin, hh]; exact List.mem_cons_self a t
    · rw [listMin]; exact List.mem_cons_of_mem a hh

theorem listMin_le {α : Type} [LinearOrder α] (d : α) (l : List α) :
    ∀ x ∈ l, listMin d l ≤ x := by
  cases l with
  | nil => simp
  | cons a t =>
    intro x hx
    rcases List.mem_cons.mp hx with rfl | hx
    · exact (foldl_min_le t x).1
    · exact (foldl_min_le t a).2 x hx

theorem listMax_mem {α : Type} [LinearOrder α] (d : α) (l : List α) (h : l ≠ []) :
    listMax d l ∈ l := by
  cases l with
  | nil => exact absurd rfl h
  | cons a t =>
    rcases foldl_max_mem t a with hh | hh
    · rw [listMax, hh]; exact List.mem_cons_self a t
    · rw [listMax]; exact List.mem_cons_of_mem a hh

theorem listMax_ge {α : Type} [LinearOrder α] (d : α) (l : List α) :
    ∀ x ∈ l, x ≤ listMax d l := by
  cases l with
  | nil => simp
  | cons a t =>
    intro x hx
    rcases List.mem_cons.mp hx with rfl | hx
    · exact (foldl_max_ge t x).1
    · exact (foldl_max_ge t a).2 x hx

theorem dedupBy_subset {α κ : Type} [DecidableEq κ] (key : α → κ) :
    ∀ (l : List α) (seen : List κ) (x : α), x ∈ dedupBy key l seen → x ∈ l := by
  intro l
  induction l with
  | nil => intro seen x hx; exact absurd hx (by simp [dedupBy])
  | cons a t ih =>
    intro seen x hx
    rw [dedupBy] at hx
    by_cases hk : key a ∈ seen
    · rw [if_pos hk] at hx
      exact List.mem_cons_of_mem a (ih seen x hx)
    · rw [if_neg hk] at hx
      rcases List.mem_cons.mp hx with rfl | hx
      · exact List.mem_cons_self x t
      · exact List.mem_cons_of_mem a (ih _ x hx)

theorem dedupBy_key_not_seen {α κ : Type} [DecidableEq κ] (key : α → κ) :
    ∀ (l : List α) (seen : List κ) (x : α), x ∈ dedupBy key l seen → key x ∉ seen := by
  intro l
  induction l with
  | nil => intro seen x hx; exact absurd hx (by simp [dedupBy])
  | cons a t ih =>
    intro seen x hx
    rw [dedupBy] at hx
    by_cases hk : key a ∈ seen
    · rw [if_pos hk] at hx
      exact ih seen x hx
    · rw [if_neg hk] at hx
      rcases List.mem_cons.mp hx with rfl | hx
      · exact hk
      · intro hc
        exact ih _ x hx (List.mem_cons_of_mem _ hc)

theorem dedupBy_pairwise {α κ : Type} [DecidableEq κ] (key : α → κ) :
    ∀ (l : List α) (seen : List κ),
      (dedupBy key l seen).Pairwise (fun a b => key a ≠ key b) := by
  intro l
  induction l with
  | nil => intro seen; simp [dedupBy]
  | cons a t ih =>
    intro seen
    rw [dedupBy]
    by_cases hk : key a ∈ seen
    · rw [if_pos hk]; exact ih seen
    · rw [if_neg hk]
      refine List.Pairwise.cons ?_ (ih _)
      intro b hb hab
      exact dedupBy_key_not_seen key t _ b hb (by rw [← hab]; exact List.mem_cons_self _ _)

theorem dedupBy_covers {α κ : Type} [DecidableEq κ] (key : α → κ) :
    ∀ (l : List α) (seen : List κ) (x : α), x ∈ l →
      key x ∈ seen ∨ ∃ r ∈ dedupBy key l seen, key r = key x := by
  intro l
  induction l with
  | nil => intro seen x hx; exact absurd hx (by simp)
  | cons a t ih =>
    intro seen x hx
    rw [dedupBy]
    by_cases hk : key a ∈ seen
    · rw [if_pos hk]
      rcases List.mem_cons.mp hx with rfl | hx
      · exact Or.inl hk
      · exact ih seen x hx
    · rw [if_neg hk]
      rcases List.mem_cons.mp hx with rfl | hx
      · exact Or.inr ⟨x, List.mem_cons_self _ _, rfl⟩
      · rcases ih (key a :: seen) x hx with hs | ⟨r, hr, hkr⟩
        · rcases List.mem_cons.mp hs with he | hs
          · exact Or.inr ⟨a, List.mem_cons_self _ _, he.symm⟩
          · exact Or.inl hs
        · exact Or.inr ⟨r, List.mem_cons_of_mem a hr, hkr⟩

theorem dedupBy_first_min {α κ : Type} [DecidableEq κ] (key : α → κ)
    (r : α → α → Prop) :
    ∀ (l : List α) (seen : List κ) (x y : α), l.Pairwise r →
      x ∈ dedupBy key l seen → y ∈ l → key y = key x → r x y ∨ x = y := by
  intro l
  induction l with
  | nil => intro seen x y _ hx; exact absurd hx (by simp [dedupBy])
  | cons a t ih =>
    intro seen x y hs hx hy hk
    obtain ⟨ha, ht⟩ := List.pairwise_cons.mp hs
    rw [dedupBy] at hx
    by_cases hka : key a ∈ seen
    · rw [if_pos hka] at hx
      rcases List.mem_cons.mp hy with rfl | hy
      · exact absurd (hk ▸ hka) (dedupBy_key_not_seen key t seen x hx)
      · exact ih seen x y ht hx hy hk
    · rw [if_neg hka] at hx
      rcases List.mem_cons.mp hx with rfl | hx
      · rcases List.mem_cons.mp hy with rfl | hy
        · exact Or.inr rfl
        · exact Or.inl (ha y hy)
      · rcases List.mem_cons.mp hy with rfl | hy
        · have := dedupBy_key_not_seen key t _ x hx
          exact absurd (List.mem_cons_self _ _) (by rw [hk] at this; exact fun hc => this hc)
        · exact ih _ x y ht hx hy hk

theorem dedupBy_cons_ne_nil {α κ : Type} [DecidableEq κ] (key : α → κ)
    (a : α) (t : List α) : dedupBy key (a :: t) [] ≠ [] := by
  rw [dedupBy]
  simp

theorem idxmin_row_mem (first : AisToTransits.AisPoint) (rest : List AisToTransits.AisPoint) :
    AisToTransits.idxmin_row first rest = first ∨ AisToTransits.idxmin_row first rest ∈ rest := by
  induction rest generalizing first with
  | nil => left; rfl
  | cons p t ih =>
    have he : AisToTransits.idxmin_row first (p :: t) =
        AisToTransits.idxmin_row (if p.dist_m < first.dist_m then p else first) t := rfl
    rw [he]
    by_cases hc : p.dist_m < first.dist_m
    · rw [if_pos hc]
      rcases ih p with hh | hh
      · right; rw [hh]; exact List.mem_cons_self p t
      · right; exact List.mem_cons_of_mem p hh
    · rw [if_neg hc]
      rcases ih first with hh | hh
      · left; exact hh
      · right; exact List.mem_cons_of_mem p hh

theorem idxmin_row_le (first : AisToTransits.AisPoint) (rest : List AisToTransits.AisPoint) :
    (AisToTransits.idxmin_row first rest).dist_m ≤ first.dist_m ∧
    ∀ p ∈ rest, (AisToTransits.idxmin_row first rest).dist_m ≤ p.dist_m := by
  induction rest generalizing first with
  | nil => exact ⟨le_refl _, by simp⟩
  | cons p t ih =>
    have he : AisToTransits.idxmin_row first (p :: t) =
        AisToTransits.idxmin_row (if p.dist_m < first.dist_m then p else first) t := rfl
    rw [he]
    by_cases hc : p.dist_m < first.dist_m
    · rw [if_pos hc]
      obtain ⟨ih1, ih2⟩ := ih p
      refine ⟨le_trans ih1 (le_of_lt hc), ?_⟩
      intro q hq
      rcases List.mem_cons.mp hq with rfl | hq
      · exact ih1
      · exact ih2 q hq
    · rw [if_neg hc]
      obtain ⟨ih1, ih2⟩ := ih first
      refine ⟨ih1, ?_⟩
      intro q hq
      rcases List.mem_cons.mp hq with rfl | hq
      · exact le_trans ih1 (le_of_not_lt hc)
      · exact ih2 q hq

theorem time_le_getLast (l : List AisToTransits.AisPoint)
    (hp : l.Pairwise (fun a b => a.time ≤ b.time)) (h : l ≠ []) :
    ∀ p ∈ l, p.time ≤ (l.getLast h).time := by
  induction l with
  | nil => exact absurd rfl h
  | cons a t ih =>
    intro p hp'
    obtain ⟨ha, ht⟩ := List.pairwise_cons.mp hp
    cases t with
    | nil =>
      rcases List.mem_cons.mp hp' with rfl | hc
      · exact le_refl _
      · exact absurd hc (by simp)
    | cons b t' =>
      rw [List.getLast_cons (by simp)]
      rcases List.mem_cons.mp hp' with rfl | hc
      · exact ha _ (List.getLast_mem _)
      · exact ih ht (by simp) p hc

theorem smInsert_val_ne_nil (m : List (List Char × List ℕ)) (s : List Char) (n : ℕ)
    (hm : ∀ p ∈ m, p.2 ≠ []) :
    ∀ p ∈ MatchTransits.smInsert m s n, p.2 ≠ [] := by
  induction m with
  | nil =>
    intro p hp
    rw [MatchTransits.smInsert] at hp
    rcases List.mem_cons.mp hp with rfl | hc
    · simp
    · exact absurd hc (by simp)
  | cons q rest ih =>
    intro p hp
    rw [MatchTransits.smInsert] at hp
    by_cases hk : q.1 = s
    · rw [if_pos hk] at hp
      rcases List.mem_cons.mp hp with he | hc
      · rw [he]; simp
      · exact hm p (List.mem_cons_of_mem q hc)
    · rw [if_neg hk] at hp
      rcases List.mem_cons.mp hp with he | hc
      · rw [he]
        exact hm q (List.mem_cons_self _ _)
      · exact ih (fun r hr => hm r (List.mem_cons_of_mem q hr)) p hc

theorem session_map_val_ne_nil (files : List (List Char)) :
    ∀ p ∈ MatchTransits.session_map files, p.2 ≠ [] := by
  rw [MatchTransits.session_map]
  generalize files.filterMap MatchTransits.sessionPair = pairs
  have core : ∀ (ps : List (List Char × ℕ)) (m : List (List Char × List ℕ)),
      (∀ p ∈ m, p.2 ≠ []) →
      ∀ p ∈ ps.foldl (fun m p => MatchTransits.smInsert m p.1 p.2) m, p.2 ≠ [] := by
    intro ps
    induction ps with
    | nil => intro m hm; exact hm
    | cons q rest ih =>
      intro m hm
      simp only [List.foldl_cons]
      exact ih _ (smInsert_val_ne_nil m q.1 q.2 hm)
  exact core pairs [] (by simp)

instance : IsTotal (List Char × List ℕ) (fun a b => a.1 ≤ b.1) :=
  ⟨fun a b => le_total a.1 b.1⟩

instance : IsTrans (List Char × List ℕ) (fun a b => a.1 ≤ b.1) :=
  ⟨fun _ _ _ h h' => le_trans h h'⟩

theorem dedup_sort_ne_nil (frames : List MatchTransits.TsRow) (h : frames ≠ []) :
    MatchTransits.dedup_sort frames ≠ [] := by
  cases frames with
  | nil => exact absurd rfl h
  | cons a t =>
    rw [MatchTransits.dedup_sort]
    intro hc
    have hperm := List.perm_insertionSort
      (fun x y : MatchTransits.TsRow => x.start ≤ y.start)
      (dedupBy MatchTransits.TsRow.file (a :: t) [])
    rw [hc] at hperm
    exact dedupBy_cons_ne_nil MatchTransits.TsRow.file a t hperm.symm.eq_nil

-- ===== Claim theorems =====

/-- C1: the relevance predicate routes a row with unknown (missing) length
through the default ceiling, not the small one.  At a default station a row
with CPA 4000 m and no length is accepted (default ceiling 5000 m) even
though 4000 m exceeds the small ceiling of 3000 m that the claim — and the
source's own comment on `SMALL_SHIP_CPA_MAX_M` ("Small / unknown ships") —
assigns to unknown-length vessels; a known 30 m vessel at the same CPA is
rejected by that small ceiling. -/
theorem C1_unknown_length_uses_default_ceiling :
    MergeAndDedup.is_acoustically_relevant ⟨"366123456", some 4000, none, "Bush_Point"⟩ = true ∧
    ¬ ((4000 : ℚ) ≤ MergeAndDedup.SMALL_SHIP_CPA_MAX_M) ∧
    MergeAndDedup.is_acoustically_relevant ⟨"366123456", some 4000, some 30, "Bush_Point"⟩ = false := by
  decide

/-- C3 counterexample: with a network on which every request fails
transiently, `download_ts` requests each of the two naming conventions
exactly once — the attempt log is precisely `[plain, padded]`, so there is
no bounded retry loop (and hence no backoff delay) around the fetch, contrary
to the claim. -/
theorem C3_no_retry_counterexample :
    (ExtractLoudest.download_ts (fun _ => .error) "rpi_bush_point" "1763366711" 5).2 =
      [⟨"rpi_bush_point", "1763366711", 5, false⟩, ⟨"rpi_bush_point", "1763366711", 5, true⟩] ∧
    ((ExtractLoudest.download_ts (fun _ => .error) "rpi_bush_point" "1763366711" 5).2.count
      ⟨"rpi_bush_point", "1763366711", 5, false⟩) = 1 ∧
    ((ExtractLoudest.download_ts (fun _ => .error) "rpi_bush_point" "1763366711" 5).2.count
      ⟨"rpi_bush_point", "1763366711", 5, true⟩) = 1 ∧
    (ExtractLoudest.download_ts (fun _ => .error) "rpi_bush_point" "1763366711" 5).1 = none := by
  decide

/-- C3 (amended): for every (session, sequence-number) implied by the
ranges, acquisition attempts the fetch once under the unpadded and, failing
that, once under the zero-padded naming convention — never more than once
per convention and with no retry or backoff; a segment unavailable under
both conventions is a soft miss (`None`), and the acquisition loop proceeds,
securing exactly the in-range segments whose download succeeded. -/
theorem C3_single_attempt_soft_miss (net : ExtractLoudest.Url → ExtractLoudest.FetchOutcome)
    (s3pfx folder : String) (seg : ℤ) :
    ((ExtractLoudest.download_ts net s3pfx folder seg).2 = [⟨s3pfx, folder, seg, false⟩] ∨
     (ExtractLoudest.download_ts net s3pfx folder seg).2 =
       [⟨s3pfx, folder, seg, false⟩, ⟨s3pfx, folder, seg, true⟩]) ∧
    ((ExtractLoudest.download_ts net s3pfx folder seg).1 = none ↔
      net ⟨s3pfx, folder, seg, false⟩ ≠ .ok ∧ net ⟨s3pfx, folder, seg, true⟩ ≠ .ok) ∧
    (∀ (ranges : List ExtractLoudest.SegRange) (fdr : String) (sg : ℤ),
      (fdr, sg) ∈ ExtractLoudest.download_all net s3pfx ranges ↔
      ∃ r ∈ ranges, r.folder = fdr ∧ r.start ≤ sg ∧ sg ≤ r.end_ ∧
        (ExtractLoudest.download_ts net s3pfx r.folder sg).1.isSome) := by
  refine ⟨?_, ?_, ?_⟩
  · rw [ExtractLoudest.download_ts]
    rcases net ⟨s3pfx, folder, seg, false⟩ <;> rcases hp : net ⟨s3pfx, folder, seg, true⟩ <;> simp
  · rw [ExtractLoudest.download_ts]
    rcases hq : net ⟨s3pfx, folder, seg, false⟩ <;> rcases hp : net ⟨s3pfx, folder, seg, true⟩ <;>
      simp [hq, hp]
  · intro ranges fdr sg
    rw [ExtractLoudest.download_all]
    rw [List.mem_flatMap]
    constructor
    · rintro ⟨r, hr, hx⟩
      rw [List.mem_filterMap] at hx
      obtain ⟨sg', hsg', hfn⟩ := hx
      rw [List.mem_map] at hsg'
      obtain ⟨i, hi, rfl⟩ := hsg'
      rw [List.mem_range] at hi
      rcases hd : (ExtractLoudest.download_ts net s3pfx r.folder (r.start + (i : ℤ))).1 with _ | u
      · rw [hd] at hfn; exact absurd hfn (by simp)
      · rw [hd] at hfn
        simp only [Option.some.injEq, Prod.mk.injEq] at hfn
        obtain ⟨hf, hs⟩ := hfn
        refine ⟨r, hr, hf, by omega, by omega, ?_⟩
        rw [← hs, hd]
        rfl
    · rintro ⟨r, hr, hf, hs1, hs2, hsome⟩
      refine ⟨r, hr, ?_⟩
      rw [List.mem_filterMap]
      refine ⟨sg, ?_, ?_⟩
      · rw [List.mem_map]
        refine ⟨(sg - r.start).toNat, ?_, by omega⟩
        rw [List.mem_range]
        omega
      · rcases hd : (ExtractLoudest.download_ts net s3pfx r.folder sg).1 with _ | u
        · rw [hd] at hsome; exact absurd hsome (by simp)
        · simp only [hd]
          simp [hf]

/-- C3 amended claim witness at a concrete network where the plain fetch
404s and the padded fetch succeeds. -/
theorem C3_single_attempt_soft_miss_witness :
    ((ExtractLoudest.download_ts
        (fun u => if u.padded then .ok else .notFound) "rpi" "f" 5).1 = none ↔
      (fun u : ExtractLoudest.Url => if u.padded then ExtractLoudest.FetchOutcome.ok
        else ExtractLoudest.FetchOutcome.notFound) ⟨"rpi", "f", 5, false⟩ ≠ .ok ∧
      (fun u : ExtractLoudest.Url => if u.padded then ExtractLoudest.FetchOutcome.ok
        else ExtractLoudest.FetchOutcome.notFound) ⟨"rpi", "f", 5, true⟩ ≠ .ok) :=
  (C3_single_attempt_soft_miss (fun u => if u.padded then .ok else .notFound) "rpi" "f" 5).2.1

/-- C4: at a default-threshold station (any site other than Sunset_Bay,
here with no delta_L rescue applying) the assembled-clip confidence is
"high" at spectral ratio 6, "medium" at 0.6, "none" at 0.2 and "none" at
NaN; and every classification outcome is one of high / medium / low / none. -/
theorem C4_confidence_default_station (site : Option String)
    (h : site ≠ some "Sunset_Bay") :
    ExtractLoudest.classify_confidence (.val 6) none none site = "high" ∧
    ExtractLoudest.classify_confidence (.val (mkRat 6 10)) none none site = "medium" ∧
    ExtractLoudest.classify_confidence (.val (mkRat 2 10)) none none site = "none" ∧
    ExtractLoudest.classify_confidence .nan none none site = "none" ∧
    ∀ (ratio : ExtractLoudest.PyFloat) (entropy delta_L : Option ExtractLoudest.PyFloat)
      (s : Option String),
      ExtractLoudest.classify_confidence ratio entropy delta_L s = "high" ∨
      ExtractLoudest.classify_confidence ratio entropy delta_L s = "medium" ∨
      ExtractLoudest.classify_confidence ratio entropy delta_L s = "low" ∨
      ExtractLoudest.classify_confidence ratio entropy delta_L s = "none" := by
  refine ⟨?_, ?_, ?_, ?_, ?_⟩
  · rw [ExtractLoudest.classify_confidence, if_neg h]; decide
  · rw [ExtractLoudest.classify_confidence, if_neg h]; decide
  · rw [ExtractLoudest.classify_confidence, if_neg h]; decide
  · rw [ExtractLoudest.classify_confidence, if_neg h]; decide
  · intro ratio entropy delta_L s
    rw [ExtractLoudest.classify_confidence]
    repeat' split
    all_goals simp

/-- C4 witness at the concrete default-threshold site Bush_Point. -/
theorem C4_confidence_default_station_witness :
    ExtractLoudest.classify_confidence (.val 6) none none (some "Bush_Point") = "high" ∧
    ExtractLoudest.classify_confidence (.val (mkRat 6 10)) none none (some "Bush_Point") = "medium" ∧
    ExtractLoudest.classify_confidence (.val (mkRat 2 10)) none none (some "Bush_Point") = "none" ∧
    ExtractLoudest.classify_confidence .nan none none (some "Bush_Point") = "none" :=
  have h := C4_confidence_default_station (some "Bush_Point") (by decide)
  ⟨h.1, h.2.1, h.2.2.1, h.2.2.2.1⟩

/-- C10: at any site other than Sunset_Bay the classifier never returns
"low" — its would-be low branch returns "none" — so the reachable outcomes
there are exactly high, medium and none (each of which is attained). -/
theorem C10_default_station_never_low (ratio : ExtractLoudest.PyFloat)
    (entropy delta_L : Option ExtractLoudest.PyFloat) (site : Option String)
    (h : site ≠ some "Sunset_Bay") :
    ExtractLoudest.classify_confidence ratio entropy delta_L site ≠ "low" ∧
    (ExtractLoudest.classify_confidence ratio entropy delta_L site = "high" ∨
     ExtractLoudest.classify_confidence ratio entropy delta_L site = "medium" ∨
     ExtractLoudest.classify_confidence ratio entropy delta_L site = "none") ∧
    ExtractLoudest.classify_confidence (.val 6) none none site = "high" ∧
    ExtractLoudest.classify_confidence (.val 1) none none site = "medium" ∧
    ExtractLoudest.classify_confidence (.val (mkRat 2 10)) none none site = "none" := by
  refine ⟨?_, ?_, ?_, ?_, ?_⟩
  · rw [ExtractLoudest.classify_confidence, if_neg h]
    repeat' split
    all_goals simp
  · rw [ExtractLoudest.classify_confidence, if_neg h]
    repeat' split
    all_goals simp
  · rw [ExtractLoudest.classify_confidence, if_neg h]; decide
  · rw [ExtractLoudest.classify_confidence, if_neg h]; decide
  · rw [ExtractLoudest.classify_confidence, if_neg h]; decide

/-- C10 witness at the concrete site Port_Townsend and a mid-band ratio. -/
theorem C10_default_station_never_low_witness :
    ExtractLoudest.classify_confidence (.val (mkRat 3 10)) none none (some "Port_Townsend") ≠ "low" ∧
    ExtractLoudest.classify_confidence (.val 6) none none (some "Port_Townsend") = "high" :=
  have h := C10_default_station_never_low (.val (mkRat 3 10)) none none
    (some "Port_Townsend") (by decide)
  ⟨h.1, h.2.2.1⟩

/-- C2: in strict selection mode a FinalDetection for a center at sequence
`n` exists exactly when both neighbors `n−1` and `n+1` of the same session
are secured, in which case the clip is exactly those three segments in
order; otherwise the whole detection is discarded and nothing (in
particular no partial clip) is emitted for it. -/
theorem C2_strict_mode_all_or_nothing (secured : String × ℤ → Bool)
    (sess : String) (n : ℤ) :
    (∀ clip, StrictMode.strict_select secured (sess, n) = some clip →
      secured (sess, n - 1) = true ∧ secured (sess, n + 1) = true ∧
      clip = [(sess, n - 1), (sess, n), (sess, n + 1)]) ∧
    ((secured (sess, n - 1) = false ∨ secured (sess, n + 1) = false) →
      StrictMode.strict_select secured (sess, n) = none) ∧
    (∀ (dets : List (String × ℤ)) (pr : (String × ℤ) × List (String × ℤ)),
      pr ∈ StrictMode.strict_finals secured dets ↔
      pr.1 ∈ dets ∧ StrictMode.strict_select secured pr.1 = some pr.2) := by
  refine ⟨?_, ?_, ?_⟩
  · intro clip hclip
    rw [StrictMode.strict_select] at hclip
    by_cases h1 : secured (sess, n - 1) = true
    · by_cases h2 : secured (sess, n + 1) = true
      · rw [if_pos (by rw [h1, h2]; rfl)] at hclip
        injection hclip with hclip
        exact ⟨h1, h2, hclip.symm⟩
      · rw [if_neg (by simp [h2])] at hclip
        exact absurd hclip (by simp)
    · rw [if_neg (by simp [h1])] at hclip
      exact absurd hclip (by simp)
  · intro hmiss
    rw [StrictMode.strict_select]
    rcases hmiss with hm | hm <;> rw [if_neg (by simp [hm])]
  · intro dets pr
    rw [StrictMode.strict_finals, List.mem_filterMap]
    constructor
    · rintro ⟨c, hc, hfc⟩
      rcases hs : StrictMode.strict_select secured c with _ | clip
      · rw [hs] at hfc; exact absurd hfc (by simp)
      · rw [hs] at hfc
        have hpr : (c, clip) = pr := by simpa using hfc
        rw [← hpr]
        exact ⟨hc, hs⟩
    · rintro ⟨hc, hs⟩
      exact ⟨pr.1, hc, by rw [hs]; rfl⟩

/-- C2 witness: loudest segment at sequence 50 whose predecessor 49 cannot
be secured is discarded whole; with both neighbors secured the clip is
exactly 49/50/51. -/
theorem C2_strict_mode_all_or_nothing_witness :
    StrictMode.strict_select (fun p => decide (p.2 ≠ 49)) ("s", 50) = none ∧
    (∀ clip, StrictMode.strict_select (fun _ => true) ("s", 50) = some clip →
      clip = [("s", 49), ("s", 50), ("s", 51)]) :=
  ⟨(C2_strict_mode_all_or_nothing (fun p => decide (p.2 ≠ 49)) "s" 50).2.1
      (Or.inl (by decide)),
   fun clip hclip =>
     ((C2_strict_mode_all_or_nothing (fun _ => true) "s" 50).1 clip hclip).2.2⟩

/-- C9: in adjacent-merge mode the clip around a center `(folder, n)` is
chosen in priority order — the same-session successor `n+1`; else, when the
center sits at the end of its session's range, the next session's first
sequence number; else (when `neighbor_after` yields nothing) the
same-session predecessor `n−1`; else, at the start of the session's range,
the previous session's last sequence number; and if no neighbor is
obtainable at all, the clip is the center segment alone — never empty, so
the detection is not discarded at this stage. -/
theorem C9_adjacent_merge_priority (ranges : List ExtractLoudest.SegRange)
    (candidates : List (String × ℤ)) (folder : String) (n : ℤ) :
    ((folder, n + 1) ∈ candidates →
      ExtractLoudest.choose_merge ranges candidates (folder, n) =
        [(folder, n), (folder, n + 1)]) ∧
    (∀ ridx r next_r, (folder, n + 1) ∉ candidates →
      ExtractLoudest.folder_to_range_idx ranges folder = some ridx →
      ranges.get? ridx = some r → n ≥ r.end_ →
      ranges.get? (ridx + 1) = some next_r →
      (next_r.folder, next_r.start) ∈ candidates →
      ExtractLoudest.choose_merge ranges candidates (folder, n) =
        [(folder, n), (next_r.folder, next_r.start)]) ∧
    (ExtractLoudest.neighbor_after ranges candidates folder n = none →
      (folder, n - 1) ∈ candidates →
      ExtractLoudest.choose_merge ranges candidates (folder, n) =
        [(folder, n - 1), (folder, n)]) ∧
    (∀ ridx r prev_r, ExtractLoudest.neighbor_after ranges candidates folder n = none →
      (folder, n - 1) ∉ candidates →
      ExtractLoudest.folder_to_range_idx ranges folder = some ridx →
      ranges.get? ridx = some r → n ≤ r.start → 1 ≤ ridx →
      ranges.get? (ridx - 1) = some prev_r →
      (prev_r.folder, prev_r.end_) ∈ candidates →
      ExtractLoudest.choose_merge ranges candidates (folder, n) =
        [(prev_r.folder, prev_r.end_), (folder, n)]) ∧
    (ExtractLoudest.neighbor_after ranges candidates folder n = none →
      ExtractLoudest.neighbor_before ranges candidates folder n = none →
      ExtractLoudest.choose_merge ranges candidates (folder, n) = [(folder, n)]) := by
  refine ⟨?_, ?_, ?_, ?_, ?_⟩
  · intro hsucc
    rw [ExtractLoudest.choose_merge]
    have ha : ExtractLoudest.neighbor_after ranges candidates folder n =
        some (folder, n + 1) := by
      rw [ExtractLoudest.neighbor_after, if_pos hsucc]
    rw [ha]
  · intro ridx r next_r hsucc hidx hget hge hnext hcand
    rw [ExtractLoudest.choose_merge]
    have ha : ExtractLoudest.neighbor_after ranges candidates folder n =
        some (next_r.folder, next_r.start) := by
      rw [ExtractLoudest.neighbor_after, if_neg hsucc]
      simp only [hidx, hget, hnext]
      rw [if_pos ⟨hge, hcand⟩]
    rw [ha]
  · intro hafter hpred
    rw [ExtractLoudest.choose_merge, hafter]
    have hb : ExtractLoudest.neighbor_before ranges candidates folder n =
        some (folder, n - 1) := by
      rw [ExtractLoudest.neighbor_before, if_pos hpred]
    rw [hb]
  · intro ridx r prev_r hafter hpred hidx hget hle hpos hprev hcand
    rw [ExtractLoudest.choose_merge, hafter]
    have hb : ExtractLoudest.neighbor_before ranges candidates folder n =
        some (prev_r.folder, prev_r.end_) := by
      rw [ExtractLoudest.neighbor_before, if_neg hpred]
      simp only [hidx]
      rw [if_pos hpos]
      simp only [hget, hprev]
      rw [if_pos ⟨hle, hcand⟩]
    rw [hb]
  · intro hafter hbefore
    rw [ExtractLoudest.choose_merge, hafter, hbefore]

/-- C9 witness covering the successor case, the cross-session case and the
single-segment fall-back on concrete ranges and candidates. -/
theorem C9_adjacent_merge_priority_witness :
    ExtractLoudest.choose_merge [⟨"s", 0, 2⟩] [("s", 1), ("s", 2)] ("s", 1) =
      [("s", 1), ("s", 2)] ∧
    ExtractLoudest.choose_merge [⟨"s", 0, 2⟩, ⟨"t", 0, 5⟩] [("s", 2), ("t", 0)] ("s", 2) =
      [("s", 2), ("t", 0)] ∧
    ExtractLoudest.choose_merge [⟨"s", 0, 2⟩] [("s", 1)] ("s", 1) = [("s", 1)] :=
  ⟨(C9_adjacent_merge_priority [⟨"s", 0, 2⟩] [("s", 1), ("s", 2)] "s" 1).1 (by decide),
   (C9_adjacent_merge_priority [⟨"s", 0, 2⟩, ⟨"t", 0, 5⟩] [("s", 2), ("t", 0)] "s" 2).2.1
     0 ⟨"s", 0, 2⟩ ⟨"t", 0, 5⟩ (by decide) (by decide) (by decide) (by decide)
     (by decide) (by decide),
   (C9_adjacent_merge_priority [⟨"s", 0, 2⟩] [("s", 1)] "s" 1).2.2.2.2
     (by decide) (by decide)⟩

/-- C7: after the relevance filter, deduplication keeps exactly one row per
MMSI — surviving rows have pairwise distinct MMSIs, each comes from the
filtered table, its CPA key is minimal among the filtered rows of its MMSI,
and every filtered MMSI is represented; in particular of two same-MMSI rows
at CPA 1200 m and 900 m only the 900 m row survives. -/
theorem C7_dedup_keeps_minimum_cpa (rows : List MergeAndDedup.Row) :
    (MergeAndDedup.process_rows rows).Pairwise (fun a b => a.mmsi ≠ b.mmsi) ∧
    (∀ r ∈ MergeAndDedup.process_rows rows,
      r ∈ rows.filter MergeAndDedup.is_acoustically_relevant) ∧
    (∀ r ∈ MergeAndDedup.process_rows rows,
      ∀ s ∈ rows.filter MergeAndDedup.is_acoustically_relevant,
        s.mmsi = r.mmsi → MergeAndDedup.cpaKey r ≤ MergeAndDedup.cpaKey s) ∧
    (∀ s ∈ rows.filter MergeAndDedup.is_acoustically_relevant,
      ∃ r ∈ MergeAndDedup.process_rows rows, r.mmsi = s.mmsi) ∧
    MergeAndDedup.process_rows
        [⟨"m", some 1200, none, "Bush_Point"⟩, ⟨"m", some 900, none, "Bush_Point"⟩] =
      [⟨"m", some 900, none, "Bush_Point"⟩] := by
  have hperm := List.perm_insertionSort MergeAndDedup.cpaLe
    (rows.filter MergeAndDedup.is_acoustically_relevant)
  have hsorted := List.sorted_insertionSort MergeAndDedup.cpaLe
    (rows.filter MergeAndDedup.is_acoustically_relevant)
  refine ⟨?_, ?_, ?_, ?_, by decide⟩
  · exact dedupBy_pairwise MergeAndDedup.Row.mmsi _ []
  · intro r hr
    exact hperm.mem_iff.mp (dedupBy_subset MergeAndDedup.Row.mmsi _ [] r hr)
  · intro r hr s hs hk
    have hs' := hperm.mem_iff.mpr hs
    rcases dedupBy_first_min MergeAndDedup.Row.mmsi MergeAndDedup.cpaLe _ [] r s
        hsorted hr hs' hk with hle | he
    · exact hle
    · rw [he]
  · intro s hs
    have hs' := hperm.mem_iff.mpr hs
    rcases dedupBy_covers MergeAndDedup.Row.mmsi _ [] s hs' with hc | ⟨r, hr, hk⟩
    · exact absurd hc (by simp)
    · exact ⟨r, hr, hk⟩

/-- C7 witness at a concrete two-file day: three rows, two sharing an MMSI. -/
theorem C7_dedup_keeps_minimum_cpa_witness :
    (∀ s ∈ ([⟨"a", some 1200, none, "Bush_Point"⟩, ⟨"b", some 400, none, "Bush_Point"⟩,
        ⟨"a", some 900, none, "Bush_Point"⟩] : List MergeAndDedup.Row).filter
          MergeAndDedup.is_acoustically_relevant,
      ∃ r ∈ MergeAndDedup.process_rows
        [⟨"a", some 1200, none, "Bush_Point"⟩, ⟨"b", some 400, none, "Bush_Point"⟩,
         ⟨"a", some 900, none, "Bush_Point"⟩], r.mmsi = s.mmsi) ∧
    MergeAndDedup.cpaKey ⟨"a", some 900, none, "Bush_Point"⟩ ≤
      MergeAndDedup.cpaKey ⟨"a", some 1200, none, "Bush_Point"⟩ :=
  ⟨(C7_dedup_keeps_minimum_cpa
      [⟨"a", some 1200, none, "Bush_Point"⟩, ⟨"b", some 400, none, "Bush_Point"⟩,
       ⟨"a", some 900, none, "Bush_Point"⟩]).2.2.2.1,
   (C7_dedup_keeps_minimum_cpa
      [⟨"a", some 1200, none, "Bush_Point"⟩, ⟨"b", some 400, none, "Bush_Point"⟩,
       ⟨"a", some 900, none, "Bush_Point"⟩]).2.2.1
     ⟨"a", some 900, none, "Bush_Point"⟩ (by decide)
     ⟨"a", some 1200, none, "Bush_Point"⟩ (by decide) (by decide)⟩

/-- C8: a transit produced from a time-ordered point group satisfies
entry ≤ CPA ≤ exit, and its CPA distance is attained at a qualifying point
(radius- and speed-filtered) and is minimal among all qualifying points. -/
theorem C8_transit_invariant (g : List AisToTransits.AisPoint)
    (tr : AisToTransits.Transit)
    (hsort : g.Pairwise (fun a b => a.time ≤ b.time))
    (h : AisToTransits.process_group g = some tr) :
    tr.t_entry ≤ tr.t_cpa ∧ tr.t_cpa ≤ tr.t_exit ∧
    (∃ p ∈ AisToTransits.inside_points g,
      tr.cpa_distance_m = p.dist_m ∧ tr.t_cpa = p.time) ∧
    ∀ p ∈ AisToTransits.inside_points g, tr.cpa_distance_m ≤ p.dist_m := by
  have hpair : (AisToTransits.inside_points g).Pairwise (fun a b => a.time ≤ b.time) := by
    rw [AisToTransits.inside_points]
    exact (hsort.sublist (List.filter_sublist g)).sublist (List.filter_sublist _)
  rw [AisToTransits.process_group] at h
  rcases hin : AisToTransits.inside_points g with _ | ⟨f, rest⟩
  · rw [hin] at h; exact absurd h (by simp)
  · rw [hin] at h hpair
    replace h : (if (f :: rest).length < AisToTransits.MIN_POINTS then none
        else
          let lastP := (f :: rest).getLast (List.cons_ne_nil f rest)
          if lastP.time - f.time < AisToTransits.MIN_DWELL_SEC then none
          else
            let cpa := AisToTransits.idxmin_row f rest
            if cpa.dist_m > AisToTransits.CPA_MAX_M then none
            else some ⟨f.time, cpa.time, lastP.time, cpa.dist_m⟩) = some tr := h
    by_cases hlen : (f :: rest).length < AisToTransits.MIN_POINTS
    · rw [if_pos hlen] at h; exact absurd h (by simp)
    · rw [if_neg hlen] at h
      by_cases hdw : ((f :: rest).getLast (List.cons_ne_nil f rest)).time - f.time <
          AisToTransits.MIN_DWELL_SEC
      · rw [if_pos hdw] at h; exact absurd h (by simp)
      · rw [if_neg hdw] at h
        by_cases hcpa : (AisToTransits.idxmin_row f rest).dist_m > AisToTransits.CPA_MAX_M
        · rw [if_pos hcpa] at h; exact absurd h (by simp)
        · rw [if_neg hcpa] at h
          injection h with h
          have hmem : AisToTransits.idxmin_row f rest ∈ f :: rest := by
            rcases idxmin_row_mem f rest with he | hm
            · rw [he]; exact List.mem_cons_self f rest
            · exact List.mem_cons_of_mem f hm
          obtain ⟨hfst, htail⟩ := List.pairwise_cons.mp hpair
          refine ⟨?_, ?_, ?_, ?_⟩
          · rw [← h]
            rcases List.mem_cons.mp hmem with he | hm
            · rw [he]
            · exact hfst _ hm
          · rw [← h]
            exact time_le_getLast (f :: rest) hpair (List.cons_ne_nil f rest) _ hmem
          · refine ⟨AisToTransits.idxmin_row f rest, hmem, ?_, ?_⟩
            · rw [← h]
            · rw [← h]
          · intro p hp
            rw [← h]
            rcases List.mem_cons.mp hp with he | hm
            · rw [he]; exact (idxmin_row_le f rest).1
            · exact (idxmin_row_le f rest).2 p hm

/-- C8 witness on a concrete three-point transit. -/
theorem C8_transit_invariant_witness :
    AisToTransits.process_group
        [⟨0, 5000, none⟩, ⟨30, 1000, none⟩, ⟨100, 2000, none⟩] =
      some ⟨0, 30, 100, 1000⟩ ∧
    ((0 : ℤ) ≤ 30 ∧ (30 : ℤ) ≤ 100 ∧
      (∃ p ∈ AisToTransits.inside_points
          [⟨0, 5000, none⟩, ⟨30, 1000, none⟩, ⟨100, 2000, none⟩],
        (1000 : ℚ) = p.dist_m ∧ (30 : ℤ) = p.time) ∧
      ∀ p ∈ AisToTransits.inside_points
          [⟨0, 5000, none⟩, ⟨30, 1000, none⟩, ⟨100, 2000, none⟩],
        (1000 : ℚ) ≤ p.dist_m) :=
  ⟨by decide,
   C8_transit_invariant [⟨0, 5000, none⟩, ⟨30, 1000, none⟩, ⟨100, 2000, none⟩]
     ⟨0, 30, 100, 1000⟩ (by decide) (by decide)⟩

/-- C5: a segment is selected for a transit exactly when
`end ≥ CPA − W ∧ start ≤ CPA + W` (inclusive on both sides); with W = 180 s
a segment [CPA+150, CPA+190] is selected and [CPA+200, CPA+400] is not; an
empty selection is marked `no_segments`, a nonempty one `window_found` with
the overlap count; and the emitted per-session ranges carry each session's
minimum and maximum sequence number, sessions sorted by identifier. -/
theorem C5_window_match (ts : List MatchTransits.TsRow) (window t_cpa : ℤ) :
    (∀ row ∈ ts, row ∈ ts.filter (MatchTransits.overlaps window t_cpa) ↔
      (row.end_ ≥ t_cpa - window ∧ row.start ≤ t_cpa + window)) ∧
    ((MatchTransits.match_row ts window t_cpa).match_status = "no_segments" ↔
      ts.filter (MatchTransits.overlaps window t_cpa) = []) ∧
    (ts.filter (MatchTransits.overlaps window t_cpa) ≠ [] →
      (MatchTransits.match_row ts window t_cpa).match_status = "window_found" ∧
      (MatchTransits.match_row ts window t_cpa).segment_count =
        (ts.filter (MatchTransits.overlaps window t_cpa)).length) ∧
    (∀ rs, (MatchTransits.match_row ts window t_cpa).segment_range = some rs →
      rs.Pairwise (fun a b => a.1 ≤ b.1) ∧
      ∀ e ∈ rs, ∃ ns, (e.1, ns) ∈ MatchTransits.session_map
          ((ts.filter (MatchTransits.overlaps window t_cpa)).map MatchTransits.TsRow.file) ∧
        e.2.1 ∈ ns ∧ e.2.2 ∈ ns ∧ ∀ k ∈ ns, e.2.1 ≤ k ∧ k ≤ e.2.2) ∧
    (∀ file : List Char,
      MatchTransits.overlaps 180 t_cpa ⟨file, t_cpa + 150, t_cpa + 190⟩ = true ∧
      MatchTransits.overlaps 180 t_cpa ⟨file, t_cpa + 200, t_cpa + 400⟩ = false) := by
  have hranges : ∀ rs, (MatchTransits.match_row ts window t_cpa).segment_range = some rs →
      rs = MatchTransits.session_ranges
        ((ts.filter (MatchTransits.overlaps window t_cpa)).map MatchTransits.TsRow.file) := by
    intro rs hrs
    rw [MatchTransits.match_row] at hrs
    by_cases hsub : ts.filter (MatchTransits.overlaps window t_cpa) = []
    · rw [if_pos hsub] at hrs
      exact absurd hrs (by simp)
    · rw [if_neg hsub] at hrs
      by_cases hsm : MatchTransits.session_map
          ((ts.filter (MatchTransits.overlaps window t_cpa)).map MatchTransits.TsRow.file) = []
      · rw [if_pos hsm] at hrs
        exact absurd hrs (by simp)
      · rw [if_neg hsm] at hrs
        injection hrs with hrs
        exact hrs.symm
  refine ⟨?_, ?_, ?_, ?_, ?_⟩
  · intro row hrow
    simp [List.mem_filter, MatchTransits.overlaps, hrow, decide_eq_true_eq]
  · rw [MatchTransits.match_row]
    by_cases hsub : ts.filter (MatchTransits.overlaps window t_cpa) = []
    · rw [if_pos hsub]
      simpa using hsub
    · rw [if_neg hsub]
      by_cases hsm : MatchTransits.session_map
          ((ts.filter (MatchTransits.overlaps window t_cpa)).map MatchTransits.TsRow.file) = []
      · rw [if_pos hsm]
        simpa using hsub
      · rw [if_neg hsm]
        simpa using hsub
  · intro hsub
    rw [MatchTransits.match_row, if_neg hsub]
    by_cases hsm : MatchTransits.session_map
        ((ts.filter (MatchTransits.overlaps window t_cpa)).map MatchTransits.TsRow.file) = []
    · rw [if_pos hsm]
      exact ⟨rfl, rfl⟩
    · rw [if_neg hsm]
      exact ⟨rfl, rfl⟩
  · intro rs hrs
    rw [hranges rs hrs]
    constructor
    · have hsorted := List.sorted_insertionSort
        (fun (a b : List Char × List ℕ) => a.1 ≤ b.1)
        (MatchTransits.session_map
          ((ts.filter (MatchTransits.overlaps window t_cpa)).map MatchTransits.TsRow.file))
      rw [MatchTransits.session_ranges]
      exact hsorted.map _ (fun a b hab => hab)
    · intro e he
      rw [MatchTransits.session_ranges] at he
      rw [List.mem_map] at he
      obtain ⟨p, hp, hfp⟩ := he
      have hpm : p ∈ MatchTransits.session_map
          ((ts.filter (MatchTransits.overlaps window t_cpa)).map MatchTransits.TsRow.file) :=
        (List.perm_insertionSort _ _).mem_iff.mp hp
      have hne : p.2 ≠ [] := session_map_val_ne_nil _ p hpm
      refine ⟨p.2, ?_, ?_, ?_, ?_⟩
      · rw [← hfp]
        exact hpm
      · rw [← hfp]
        exact listMin_mem 0 p.2 hne
      · rw [← hfp]
        exact listMax_mem 0 p.2 hne
      · intro k hk
        rw [← hfp]
        exact ⟨listMin_le 0 p.2 k hk, listMax_ge 0 p.2 k hk⟩
  · intro file
    constructor
    · simp only [MatchTransits.overlaps, Bool.and_eq_true, decide_eq_true_eq]
      omega
    · have hns : ¬ (t_cpa + 200 ≤ t_cpa + 180) := by omega
      simp [MatchTransits.overlaps, hns]

/-- C5 witness on a concrete index: one overlapping and one non-overlapping
segment around CPA = 0 with the default half-window. -/
theorem C5_window_match_witness :
    (⟨("s/live1.ts").data, 150, 190⟩ : MatchTransits.TsRow) ∈
      ([⟨("s/live1.ts").data, 150, 190⟩, ⟨("s/live2.ts").data, 200, 400⟩] :
        List MatchTransits.TsRow).filter (MatchTransits.overlaps 180 0) ∧
    (MatchTransits.match_row
      [⟨("s/live1.ts").data, 150, 190⟩, ⟨("s/live2.ts").data, 200, 400⟩] 180 0).match_status =
      "window_found" := by
  have h := C5_window_match
    [⟨("s/live1.ts").data, 150, 190⟩, ⟨("s/live2.ts").data, 200, 400⟩] 180 0
  refine ⟨?_, ?_⟩
  · exact (h.1 ⟨("s/live1.ts").data, 150, 190⟩ (by decide)).mpr (by decide)
  · exact (h.2.2.1 (by decide)).1

/-- C6: for a nonempty station-day index, coverage below 23.5 h causes the
next UTC day's index to be looked up and (when present) merged through the
same dedup-and-sort; coverage above 24.5 h only logs the fall-back note and
fetches nothing; coverage in between does neither. -/
theorem C6_dst_coverage (frames : List MatchTransits.TsRow)
    (next_day_file : Option (List MatchTransits.TsRow)) (h : frames ≠ []) :
    ∃ res, MatchTransits.load_timestamp_dataframe frames next_day_file = some res ∧
      res.fetchedNextDay = decide (MatchTransits.coverage_hours
        (MatchTransits.dedup_sort frames) < MatchTransits.MIN_DAY_HOURS) ∧
      res.fallbackLogged = decide (MatchTransits.coverage_hours
        (MatchTransits.dedup_sort frames) > MatchTransits.MAX_DAY_HOURS) ∧
      (MatchTransits.coverage_hours (MatchTransits.dedup_sort frames) <
          MatchTransits.MIN_DAY_HOURS →
        ∀ extra, next_day_file = some extra →
          res.ts = MatchTransits.dedup_sort (MatchTransits.dedup_sort frames ++ extra) ∧
          res.includedNextDay = true) ∧
      (¬ MatchTransits.coverage_hours (MatchTransits.dedup_sort frames) <
          MatchTransits.MIN_DAY_HOURS →
        res.ts = MatchTransits.dedup_sort frames ∧ res.includedNextDay = false) := by
  have hts := dedup_sort_ne_nil frames h
  rw [MatchTransits.load_timestamp_dataframe, if_neg h]
  simp only [if_neg hts]
  by_cases hcov : MatchTransits.coverage_hours (MatchTransits.dedup_sort frames) <
      MatchTransits.MIN_DAY_HOURS
  · rw [if_pos hcov]
    have hnofb : ¬ MatchTransits.coverage_hours (MatchTransits.dedup_sort frames) >
        MatchTransits.MAX_DAY_HOURS := by
      have hlt : MatchTransits.MIN_DAY_HOURS < MatchTransits.MAX_DAY_HOURS := by
        rw [MatchTransits.MIN_DAY_HOURS, MatchTransits.MAX_DAY_HOURS,
          Rat.mkRat_eq_div, Rat.mkRat_eq_div]
        norm_num
      exact not_lt.mpr (le_of_lt (lt_trans hcov hlt))
    rcases next_day_file with _ | extra
    · refine ⟨_, rfl, by simp [hcov], by simp [hnofb], ?_, ?_⟩
      · intro _ e he
        exact absurd he (by simp)
      · intro hn
        exact absurd hcov hn
    · refine ⟨_, rfl, by simp [hcov], by simp [hnofb], ?_, ?_⟩
      · intro _ e he
        injection he with he
        rw [← he]
        exact ⟨rfl, rfl⟩
      · intro hn
        exact absurd hcov hn
  · rw [if_neg hcov]
    by_cases hfb : MatchTransits.coverage_hours (MatchTransits.dedup_sort frames) >
        MatchTransits.MAX_DAY_HOURS
    · rw [if_pos hfb]
      refine ⟨_, rfl, by simp [hcov], by simp [hfb], ?_, ?_⟩
      · intro hc
        exact absurd hc hcov
      · intro _
        exact ⟨rfl, rfl⟩
    · rw [if_neg hfb]
      refine ⟨_, rfl, by simp [hcov], by simp [hfb], ?_, ?_⟩
      · intro hc
        exact absurd hc hcov
      · intro _
        exact ⟨rfl, rfl⟩

/-- C6 witness: coverage 23 h pulls the next day's file in; 25 h only logs
the fall-back note; 24 h does neither. -/
theorem C6_dst_coverage_witness :
    (∃ res, MatchTransits.load_timestamp_dataframe
        [⟨("a").data, 0, 82800⟩] (some [⟨("b").data, 82800, 82810⟩]) = some res ∧
      res.fetchedNextDay = true ∧ res.includedNextDay = true ∧
      res.fallbackLogged = false) ∧
    (∃ res, MatchTransits.load_timestamp_dataframe [⟨("a").data, 0, 90000⟩] none = some res ∧
      res.fetchedNextDay = false ∧ res.includedNextDay = false ∧
      res.fallbackLogged = true) ∧
    (∃ res, MatchTransits.load_timestamp_dataframe [⟨("a").data, 0, 86400⟩] none = some res ∧
      res.fetchedNextDay = false ∧ res.includedNextDay = false ∧
      res.fallbackLogged = false) := by
  refine ⟨?_, ?_, ?_⟩
  · obtain ⟨res, hres, h1, h2, h3, h4⟩ := C6_dst_coverage
      [⟨("a").data, 0, 82800⟩] (some [⟨("b").data, 82800, 82810⟩]) (by decide)
    refine ⟨res, hres, ?_, ?_, ?_⟩
    · rw [h1]; decide
    · exact (h3 (by decide) _ rfl).2
    · rw [h2]; decide
  · obtain ⟨res, hres, h1, h2, h3, h4⟩ := C6_dst_coverage
      [⟨("a").data, 0, 90000⟩] none (by decide)
    refine ⟨res, hres, ?_, ?_, ?_⟩
    · rw [h1]; decide
    · exact (h4 (by decide)).2
    · rw [h2]; decide
  · obtain ⟨res, hres, h1, h2, h3, h4⟩ := C6_dst_coverage
      [⟨("a").data, 0, 86400⟩] none (by decide)
    refine ⟨res, hres, ?_, ?_, ?_⟩
    · rw [h1]; decide
    · exact (h4 (by decide)).2
    · rw [h2]; decide
